import Mathlib

/-!
Shallow embedding of `src/app.py` (Disney Animal Kingdom wait-time dashboard).

The program has two halves:

1. An ETL pass (lines 14-69 of `app.py`): five per-ride CSVs are loaded,
   the unused `SACTMIN` and `date` columns dropped, rows with a null
   `SPOSTMIN` dropped, the wait column renamed per ride, the five frames
   outer-merged pairwise on the common `datetime` column, calendar columns
   (`Year`, `Month`, `Day`, `Hour`) derived, rows sorted by `datetime`,
   each ride column backward-filled within `(Year, Month, Day)` groups,
   and finally every occurrence of the sentinel `-999` replaced by null.

2. A chart callback `update_charts(ride, date)` (lines 158-209): filters
   the unified table to rows whose `Day` and `Month` equal the picked
   date's day and month, and builds hourly-mean line traces and
   yearly-mean bar traces per ride.

Modelling choices:
  * A pandas timestamp is a record of its calendar components
    (year, month, day, hour, minute); chronological order is the
    lexicographic order on those components.  The `.dt.year` etc.
    accessors are the projections.
  * A nullable float cell is `Option Rat`; `none` models `NaN`.
    Means are exact rational arithmetic.
  * `pd.merge(a, b, how = "outer")` merges on the single common column
    `datetime` (the ride columns were renamed apart); the embedding
    produces matched left rows first, then unmatched right rows.  The
    row order it produces is irrelevant downstream because the table is
    re-sorted by `datetime` before the only order-sensitive step (bfill).
  * `sort_values` is modelled by insertion sort on the chronological
    order; downstream facts rely only on sortedness and permutation.
  * `groupby(k)[c].mean()` keeps one entry per distinct key, keys in
    ascending order (pandas default `sort=True`), value the mean of the
    group's non-null cells, `none` (NaN) when the group is all-null.
  * `list(set(xs))` for the line chart's hours is modelled by a
    faithful simulation of a CPython set of small nonnegative ints
    (open addressing over a power-of-two table, slot `hash & mask`,
    nine linear probes when they fit, perturbed rehash
    `i = i*5 + 1 + (perturb >>= 5)`, growth by 4x past 3/5 fill,
    iteration in slot order) — this order is NOT always ascending, a
    fact the C4 analysis turns on; the bar chart's years are
    explicitly sorted by the source (`sorted.sort()`), so their `x`
    is modelled as sorted deduplication directly.
  * A raised Python exception (e.g. the `KeyError` from indexing a
    groupby with an unknown column name) is modelled by `none` in an
    `Option` result.
-/

/-- A point in time, as pandas exposes it: its calendar components.
Chronological order is lexicographic on (year, month, day, hour, minute). -/
structure Timestamp where
  year : Int
  month : Int
  day : Int
  hour : Int
  minute : Int
deriving DecidableEq, Repr

/-- Chronological (lexicographic) order on timestamps. -/
def Timestamp.le (a b : Timestamp) : Prop :=
  a.year < b.year ∨ (a.year = b.year ∧
    (a.month < b.month ∨ (a.month = b.month ∧
      (a.day < b.day ∨ (a.day = b.day ∧
        (a.hour < b.hour ∨ (a.hour = b.hour ∧ a.minute ≤ b.minute)))))))

instance (a b : Timestamp) : Decidable (Timestamp.le a b) := by
  unfold Timestamp.le; infer_instance

/-- One raw record of a ride's CSV, restricted to the two columns the
program uses after dropping `SACTMIN` and `date`: the `datetime` column
and the nullable `SPOSTMIN` wait-time column. -/
abbrev RawRecord := Timestamp × Option Rat

/-- A cleaned record: after `dropna(subset = ["SPOSTMIN"])` the wait value
is present. -/
abbrev CleanRecord := Timestamp × Rat

/-- Line 28: `dropna(subset = ["SPOSTMIN"])` — drop rows whose wait cell
is null. -/
def dropnaSPOSTMIN (l : List RawRecord) : List CleanRecord :=
  l.filterMap fun p => p.2.map fun v => (p.1, v)

/-- A row of a partially merged table: the shared `datetime` key plus one
nullable wait column per ride merged so far (in merge order). -/
abbrev MRow := Timestamp × List (Option Rat)

/-- View a single cleaned ride frame as a one-wait-column table. -/
def toTable (l : List CleanRecord) : List MRow :=
  l.map fun p => (p.1, [some p.2])

/-- Lines 33 and 37: `pd.merge(t, r, how = "outer")` where the only
common column is `datetime`.  Each left row is matched against the right
rows with the same key (cartesian on duplicates, null-extended when the
key is absent on the right); right rows whose key never occurs on the
left are appended with the `w` existing wait columns null. -/
def mergeStep (t : List MRow) (w : Nat) (r : List CleanRecord) : List MRow :=
  (t.flatMap fun p =>
    match r.filter (fun q => q.1 = p.1) with
    | [] => [(p.1, p.2 ++ [none])]
    | ms => ms.map fun q => (p.1, p.2 ++ [some q.2]))
  ++ ((r.filter fun q => decide (∀ p ∈ t, p.1 ≠ q.1)).map
      fun q => (q.1, List.replicate w none ++ [some q.2]))

/-- Lines 33-37: the pairwise outer-join chain, in source order
dino, everest, passage, safari, navi. -/
def unifyMerge (dino everest passage safari navi : List CleanRecord) : List MRow :=
  mergeStep (mergeStep (mergeStep (mergeStep (toTable dino) 1 everest) 2 passage) 3 safari) 4 navi

/-- A row of the unified table: the `datetime` key, the five ride wait
columns (order dino, everest, passage, safari, navi) and the derived
`Year`, `Month`, `Day`, `Hour` columns. -/
structure URow where
  datetime : Timestamp
  vals : List (Option Rat)
  year : Int
  month : Int
  day : Int
  hour : Int
deriving DecidableEq, Repr

/-- Lines 40-43: derive the `Year`, `Month`, `Day`, `Hour` columns from
the `datetime` column. -/
def deriveCalendar (t : List MRow) : List URow :=
  t.map fun p => ⟨p.1, p.2, p.1.year, p.1.month, p.1.day, p.1.hour⟩

/-- Order on unified rows by the `datetime` column. -/
def rowLE (a b : URow) : Prop := Timestamp.le a.datetime b.datetime

instance (a b : URow) : Decidable (rowLE a b) := by
  unfold rowLE; infer_instance

instance : IsTotal URow rowLE where
  total a b := by
    unfold rowLE Timestamp.le
    obtain ⟨ya, ma, da, ha, na⟩ := a.datetime
    obtain ⟨yb, mb, db, hb, nb⟩ := b.datetime
    simp only
    rcases lt_trichotomy ya yb with h1 | h1 | h1
    · omega
    · rcases lt_trichotomy ma mb with h2 | h2 | h2
      · omega
      · rcases lt_trichotomy da db with h3 | h3 | h3
        · omega
        · omega
        · omega
      · omega
    · omega

instance : IsTrans URow rowLE where
  trans a b c h1 h2 := by
    unfold rowLE Timestamp.le at *
    omega

/-- Line 50: `data_df.sort_values("datetime")` — sort the rows of the
unified table ascending by timestamp. -/
def sortValues (t : List URow) : List URow :=
  List.insertionSort rowLE t

/-- The wait cell of row `r` in ride column `c` (0 = dino, 1 = everest,
2 = passage, 3 = safari, 4 = navi). -/
def colVal (r : URow) (c : Nat) : Option Rat :=
  r.vals.getD c none

/-- The `(Year, Month, Day)` groupby key of a row (line 57). -/
def dayKey (r : URow) : Int × Int × Int :=
  (r.year, r.month, r.day)

/-- Backward fill of one keyed column: each null cell takes the first
non-null cell that occurs later in the sequence within the same group
key; rows keep their positions.  This is `groupby([...])[col].bfill()`
restricted to one column laid out in dataframe order. -/
def bfillVals : List ((Int × Int × Int) × Option Rat) → List (Option Rat)
  | [] => []
  | (k, v) :: rest =>
    (match v with
     | some x => some x
     | none => ((rest.filter fun p => p.1 = k).filterMap Prod.snd).head?) :: bfillVals rest

/-- Write cell `v` into ride column `c` of row `r`. -/
def setVal (r : URow) (c : Nat) (v : Option Rat) : URow :=
  { r with vals := r.vals.set c v }

/-- Line 57 for a single ride column `c`:
`data_df[col] = data_df.groupby(["Year", "Month", "Day"])[col].bfill()`. -/
def bfillCol (c : Nat) (rows : List URow) : List URow :=
  (rows.zip (bfillVals (rows.map fun r => (dayKey r, colVal r c)))).map
    fun p => setVal p.1 c p.2

/-- Lines 56-57: the backfill loop over the five ride columns. -/
def bfillAll (rows : List URow) : List URow :=
  bfillCol 4 (bfillCol 3 (bfillCol 2 (bfillCol 1 (bfillCol 0 rows))))

/-- Line 66: `data_df.replace(-999, np.nan)` on the ride wait columns.
(The derived calendar columns come from valid pandas timestamps — years
1677-2262, months 1-12, days 1-31, hours 0-23 — so no calendar cell can
hold -999; the wait columns are the only columns the sentinel occurs
in.) -/
def replaceSentinel (rows : List URow) : List URow :=
  rows.map fun r =>
    { r with vals := r.vals.map fun v => if v = some (-999) then none else v }

/-- The whole ETL pass, lines 14-66: clean each ride frame, outer-merge
them pairwise, derive calendar columns, sort by timestamp, backfill each
ride column within day groups, then null out the -999 sentinel. -/
def unify (dino everest passage safari navi : List RawRecord) : List URow :=
  replaceSentinel (bfillAll (sortValues (deriveCalendar
    (unifyMerge (dropnaSPOSTMIN dino) (dropnaSPOSTMIN everest)
      (dropnaSPOSTMIN passage) (dropnaSPOSTMIN safari) (dropnaSPOSTMIN navi)))))

/-- Line 160: the ride column names, in source order. -/
def colNames : List String :=
  ["SPOSTMIN_dino", "SPOSTMIN_everest", "SPOSTMIN_passage", "SPOSTMIN_safari", "SPOSTMIN_navi"]

/-- Line 161: the ride display names, in the same order. -/
def rideNames : List String :=
  ["Dinosaur", "Expedition Everest", "Flight of Passage", "Kilimanjaro Safaris", "Navi River"]

/-- Lines 176 and 190: filter the unified table to the rows whose `Day`
and `Month` columns equal the picked date's day and month (the year of
the picked date is not consulted). -/
def filterDM (table : List URow) (d : Timestamp) : List URow :=
  table.filter fun r => decide (r.day = d.day) && decide (r.month = d.month)

/-- Ascending deduplicated key list.  Models a pandas groupby key index
(pandas sorts group keys ascending by default) and the bar chart's
`x`, which the source sorts explicitly (`sorted.sort()`, lines
184-185 / 201-202). -/
def sortedDistinct (l : List Int) : List Int :=
  List.insertionSort (fun a b => a ≤ b) l.dedup

/-- One probe step of CPython `set_add_entry`: examine table slot `i`;
a free slot means "place here" (`some (some i)`), a slot holding the
key itself means "already present" (`some none`), any other key means
"keep probing" (`none`). -/
def checkSlot (t : List (Option Nat)) (h i : Nat) : Option (Option Nat) :=
  match t.getD i none with
  | none => some (some i)
  | some y => if y = h then some none else none

/-- The linear-probe scan of `set_add_entry`: slots `i, i+1, ..., i+k`
in order, stopping at the first free or equal slot. -/
def linScan (t : List (Option Nat)) (h : Nat) : Nat → Nat → Option (Option Nat)
  | i, 0 => checkSlot t h i
  | i, Nat.succ k =>
    match checkSlot t h i with
    | some r => some r
    | none => linScan t h (i + 1) k

/-- The probe loop of CPython `set_add_entry`: start at `hash & mask`,
scan `LINEAR_PROBES = 9` consecutive slots when they fit below the
mask, otherwise jump with `perturb >>= 5; i = (i*5 + 1 + perturb) & mask`.
Fuel-bounded; the fuel passed is always sufficient because the table
keeps a free slot.  Returns the slot to fill, or `none` when the key
is already present. -/
def probeLoop (t : List (Option Nat)) (mask h : Nat) : Nat → Nat → Nat → Option Nat
  | 0, _, _ => some 0
  | Nat.succ fuel, perturb, i =>
    match linScan t h i (if i + 9 ≤ mask then 9 else 0) with
    | some r => r
    | none =>
      probeLoop t mask h fuel (perturb >>> 5) ((i * 5 + 1 + (perturb >>> 5)) % (mask + 1))

/-- The scan of CPython `set_insert_clean` (used while rebuilding a
grown table, where no duplicates can occur): first free slot among
`i, ..., i+k`. -/
def cleanScan (t : List (Option Nat)) : Nat → Nat → Option Nat
  | i, 0 => match t.getD i none with | none => some i | some _ => none
  | i, Nat.succ k =>
    match t.getD i none with
    | none => some i
    | some _ => cleanScan t (i + 1) k

/-- The probe loop of `set_insert_clean`, same schedule as `probeLoop`
without equality checks. -/
def cleanLoop (t : List (Option Nat)) (mask h : Nat) : Nat → Nat → Nat → Nat
  | 0, _, _ => 0
  | Nat.succ fuel, perturb, i =>
    match cleanScan t i (if i + 9 ≤ mask then 9 else 0) with
    | some idx => idx
    | none =>
      cleanLoop t mask h fuel (perturb >>> 5) ((i * 5 + 1 + (perturb >>> 5)) % (mask + 1))

def growSizeGo : Nat → Nat → Nat → Nat
  | 0, cur, _ => cur
  | Nat.succ fuel, cur, minused =>
    if cur ≤ minused then growSizeGo fuel (cur * 2) minused else cur

/-- `set_table_resize` target size: the smallest power of two strictly
above `minused`, starting from `PySet_MINSIZE = 8`. -/
def growSize (minused : Nat) : Nat :=
  growSizeGo (minused + 8) 8 minused

/-- `set_table_resize`: rebuild into a fresh table of `growSize minused`
slots, re-inserting the old entries in slot order via `set_insert_clean`. -/
def setResize (t : List (Option Nat)) (minused : Nat) : List (Option Nat) :=
  let size := growSize minused
  (t.filterMap id).foldl
    (fun nt h => nt.set (cleanLoop nt (size - 1) h (size + 64) h (h % size)) (some h))
    (List.replicate size none)

/-- CPython `set_add_entry` on a table with `used` entries: probe, place
the key when absent, then grow by 4x (2x past 50000) once the fill
reaches 3/5 of the mask, exactly as `if fill*5 >= mask*3: resize(...)`. -/
def setAdd (t : List (Option Nat)) (used h : Nat) : List (Option Nat) × Nat :=
  match probeLoop t (t.length - 1) h (t.length + 64) h (h % t.length) with
  | none => (t, used)
  | some idx =>
    let t2 := t.set idx (some h)
    if (used + 1) * 5 ≥ (t.length - 1) * 3 then
      (setResize t2 (if used + 1 > 50000 then (used + 1) * 2 else (used + 1) * 4), used + 1)
    else (t2, used + 1)

/-- `list(set(xs))` as CPython computes it for the small nonnegative
ints of the `Hour` column (0-23, whose hash is the value itself):
insert in sequence order into a size-8 table and read the slots back in
order.  This order is ascending only when no mod-table collisions
displace anything (e.g. inserting 9, 10, 1, 2 iterates as 9, 10, 2, 1). -/
def pySetList (l : List Int) : List Int :=
  ((l.foldl (fun st x => setAdd st.1 st.2 x.toNat) (List.replicate 8 none, 0)).1.filterMap
    id).map fun n => (n : Int)

/-- The mean pandas computes for one group of a nullable column: skip
nulls, return NaN (here `none`) when every cell is null. -/
def meanOpt (l : List Rat) : Option Rat :=
  if l.isEmpty then none else some (l.sum / l.length)

/-- The non-null cells of ride column `c` among the rows of one group. -/
def groupVals (rows : List URow) (key : URow → Int) (k : Int) (c : Nat) : List Rat :=
  (rows.filter fun r => decide (key r = k)).filterMap fun r => colVal r c

/-- `rows.groupby(key)[c].mean()`: one entry per distinct key, keys
ascending, value the null-skipping mean of the group (NaN when the
group is all-null). -/
def groupMeans (rows : List URow) (key : URow → Int) (c : Nat) : List (Int × Option Rat) :=
  (sortedDistinct (rows.map key)).map fun k => (k, meanOpt (groupVals rows key k c))

/-- A plotly trace as the callback builds it: the `x` list, the `y`
list (nullable — a NaN `y` renders as a gap, i.e. no point), and the
optional legend label passed as `name`. -/
structure Trace where
  x : List Int
  y : List (Option Rat)
  label : Option String
deriving DecidableEq, Repr

/-- Lines 178-180 / 192-197: the hourly scatter trace for ride column
`c`: `x = list(set(data["Hour"]))` in CPython set-iteration order,
`y = data.groupby(["Hour"])[c].mean()` — a Series whose values are in
ascending key order.  Nothing re-aligns `x` with `y`. -/
def hourlyTrace (data : List URow) (c : Nat) (nm : Option String) : Trace :=
  { x := pySetList (data.map fun r => r.hour)
    y := (groupMeans data (fun r => r.hour) c).map Prod.snd
    label := nm }

/-- Lines 182-187 / 199-206: the yearly bar trace for ride column `c`:
`x` is the explicitly sorted `list(set(data["Year"]))`,
`y = data.groupby(["Year"])[c].mean()`. -/
def yearlyTrace (data : List URow) (c : Nat) (nm : Option String) : Trace :=
  { x := sortedDistinct (data.map fun r => r.year)
    y := (groupMeans data (fun r => r.year) c).map Prod.snd
    label := nm }

/-- Lines 158-209: the `update_charts(ride, date)` callback.  Returns
the traces of the line chart and of the bar chart.  In the single-ride
branch an unknown ride string makes `data.groupby(["Hour"])[ride]`
raise a `KeyError`, modelled by `none`; note that the bar trace of the
single-ride branch is built without a `name` argument (line 206). -/
def updateCharts (table : List URow) (ride : String) (d : Timestamp) :
    Option (List Trace × List Trace) :=
  if ride = "All" then
    some ((List.range 5).map fun r => hourlyTrace (filterDM table d) r (some (rideNames.getD r "")),
          (List.range 5).map fun r => yearlyTrace (filterDM table d) r (some (rideNames.getD r "")))
  else
    match colNames.findIdx? (fun s => s = ride) with
    | none => none
    | some c =>
      some ([hourlyTrace (filterDM table d) c (some (rideNames.getD c ""))],
            [yearlyTrace (filterDM table d) c none])

/-- The callback with the process state (the module-level `data_df`)
threaded explicitly: none of the operations in `update_charts` uses
`inplace=True` — `.loc` filtering, `groupby(...).mean()` and the
set/list constructions all build fresh objects — so the table the
callback leaves behind is the table it was given. -/
def updateChartsSt (table : List URow) (ride : String) (d : Timestamp) :
    Option (List Trace × List Trace) × List URow :=
  (updateCharts table ride d, table)

/-- The plotted points of a trace: the positionally paired `(x, y)`
entries whose `y` is not NaN (plotly draws no marker for a NaN `y`). -/
def tracePoints (tr : Trace) : List (Int × Rat) :=
  (tr.x.zip tr.y).filterMap fun p => p.2.map fun v => (p.1, v)

instance : Inhabited URow :=
  ⟨⟨⟨0, 0, 0, 0, 0⟩, [], 0, 0, 0, 0⟩⟩

/-- The one ride column `c` of a table laid out with its groupby key, as
the bfill step consumes it. -/
def keyedCol (c : Nat) (rows : List URow) : List ((Int × Int × Int) × Option Rat) :=
  rows.map fun r => (dayKey r, colVal r c)

/-- A table-to-table pass that keeps every row in place: same position,
same datetime and calendar fields, same column width, and every
non-null wait cell unchanged. -/
def FrameStep (f : List URow → List URow) : Prop :=
  ∀ (rows : List URow) (i : Nat) (r : URow), rows[i]? = some r → ∃ r2, (f rows)[i]? = some r2 ∧
    r2.datetime = r.datetime ∧ r2.year = r.year ∧ r2.month = r.month ∧
    r2.day = r.day ∧ r2.hour = r.hour ∧ r2.vals.length = r.vals.length ∧
    ∀ c x, colVal r c = some x → colVal r2 c = some x

/-- Sample timestamps and rows used to instantiate theorems with
hypotheses at concrete inputs. -/
def ts1 : Timestamp := ⟨2021, 6, 1, 10, 0⟩

def ts2 : Timestamp := ⟨2021, 6, 1, 11, 0⟩

def row1 : URow := ⟨ts1, [some 20, none, none, none, none], 2021, 6, 1, 10⟩

def row2 : URow := ⟨ts2, [none, some 5, none, none, none], 2021, 6, 1, 11⟩

def sampleTable : List URow := [row1, row2]

def dJune : Timestamp := ⟨2021, 6, 1, 0, 0⟩

def dEmpty : Timestamp := ⟨2021, 12, 25, 0, 0⟩

def d2021 : Timestamp := ⟨2021, 7, 4, 0, 0⟩

def d2022 : Timestamp := ⟨2022, 7, 4, 0, 0⟩

/-- A July-4th table across two years whose distinct hours 9, 10, 1, 2
collide modulo the size-8 set table: CPython iterates them 9, 10, 2, 1,
misaligning the line chart's x with its ascending-keyed means. -/
def rowM1 : URow := ⟨⟨2021, 7, 4, 9, 0⟩, [some 90, none, none, none, none], 2021, 7, 4, 9⟩

def rowM2 : URow := ⟨⟨2021, 7, 4, 10, 0⟩, [some 100, none, none, none, none], 2021, 7, 4, 10⟩

def rowM3 : URow := ⟨⟨2022, 7, 4, 1, 0⟩, [some 10, none, none, none, none], 2022, 7, 4, 1⟩

def rowM4 : URow := ⟨⟨2022, 7, 4, 2, 0⟩, [some 20, none, none, none, none], 2022, 7, 4, 2⟩

def misalignTable : List URow := [rowM1, rowM2, rowM3, rowM4]

/-- A date outside the 2021-2022 data window whose day and month still
match rows (the filter never reads the year). -/
def dmis : Timestamp := ⟨2023, 7, 4, 0, 0⟩

/-- The value a null cell receives from the backward fill: the first
non-null cell among the later rows of the same `(Year, Month, Day)`
group (this is the `none` branch inside `bfillVals`). -/
def nextInDay (k : Int × Int × Int) (rest : List ((Int × Int × Int) × Option Rat)) : Option Rat :=
  ((rest.filter fun p => p.1 = k).filterMap Prod.snd).head?

/-- The wait value a cleaned ride frame holds at a timestamp, if any
(the column a full outer join on `datetime` carries over from that
frame). -/
def lookupVal (l : List CleanRecord) (ts : Timestamp) : Option Rat :=
  (l.find? fun p => p.1 = ts).map Prod.snd

/-- The invariant the outer-join chain maintains: after merging the
frames of `Ls`, each timestamp of any frame appears exactly once as a
key, and each row carries, per frame in order, the frame's wait value
at that timestamp (null when the frame lacks it). -/
def MergedOk (Ls : List (List CleanRecord)) (t : List MRow) : Prop :=
  ((t.map Prod.fst).Nodup)
  ∧ (∀ ts : Timestamp, ts ∈ t.map Prod.fst ↔ ∃ L ∈ Ls, ts ∈ L.map Prod.fst)
  ∧ (∀ row ∈ t, row.2 = Ls.map fun L => lookupVal L row.1)

def cdino : List CleanRecord := [(ts1, 20)]

def ceverest : List CleanRecord := [(ts2, 5)]

theorem replaceSentinel_getD (rows : List URow) (i : Nat) :
    (replaceSentinel rows).getD i default =
      { (rows.getD i default) with
        vals := (rows.getD i default).vals.map fun v => if v = some (-999) then none else v } := by
  unfold replaceSentinel
  rcases h : rows[i]? with _ | r
  · simp only [List.getD_eq_getElem?_getD, List.getElem?_map, h, Option.map_none, Option.getD_none]
    rfl
  · simp [List.getD_eq_getElem?_getD, h]

theorem colVal_sentinelMap (r : URow) (c : Nat) :
    colVal { r with vals := r.vals.map fun v => if v = some (-999) then none else v } c =
      if colVal r c = some (-999) then none else colVal r c := by
  unfold colVal
  simp only [List.getD_eq_getElem?_getD, List.getElem?_map]
  rcases r.vals[c]? with _ | v
  · simp
  · rcases v with _ | x
    · simp
    · simp

theorem bfillVals_length (l : List ((Int × Int × Int) × Option Rat)) :
    (bfillVals l).length = l.length := by
  induction l with
  | nil => rfl
  | cons hd tl ih =>
    obtain ⟨k, v⟩ := hd
    simp [bfillVals, ih]

theorem bfillVals_getElem? (l : List ((Int × Int × Int) × Option Rat)) (i : Nat) :
    (bfillVals l)[i]? = (l[i]?).map fun kv =>
      match kv.2 with
      | some x => some x
      | none => (((l.drop (i + 1)).filter fun p => p.1 = kv.1).filterMap Prod.snd).head? := by
  induction l generalizing i with
  | nil => simp [bfillVals]
  | cons hd tl ih =>
    obtain ⟨k, v⟩ := hd
    cases i with
    | zero =>
      cases v with
      | none => simp [bfillVals]
      | some x => simp [bfillVals]
    | succ j =>
      simp only [bfillVals, List.getElem?_cons_succ, List.drop_succ_cons]
      exact ih j

theorem dayKey_setVal (r : URow) (c : Nat) (v : Option Rat) :
    dayKey (setVal r c v) = dayKey r := rfl

theorem colVal_setVal_ne {c c2 : Nat} (h : c ≠ c2) (r : URow) (v : Option Rat) :
    colVal (setVal r c v) c2 = colVal r c2 := by
  unfold colVal setVal
  simp [List.getD_eq_getElem?_getD, List.getElem?_set_ne h]

theorem colVal_setVal_self {c : Nat} (r : URow) (v : Option Rat) (h : c < r.vals.length) :
    colVal (setVal r c v) c = v := by
  unfold colVal setVal
  simp [List.getD_eq_getElem?_getD, List.getElem?_set_self h]

theorem bfillCol_length (c : Nat) (rows : List URow) :
    (bfillCol c rows).length = rows.length := by
  unfold bfillCol
  rw [List.length_map, List.length_zip, bfillVals_length, List.length_map]
  exact Nat.min_self _

theorem bfillCol_getElem? (c : Nat) (rows : List URow) (i : Nat) :
    (bfillCol c rows)[i]? = (rows[i]?).map fun r =>
      setVal r c (((bfillVals (keyedCol c rows))[i]?).getD none) := by
  unfold bfillCol keyedCol
  rw [List.getElem?_map, List.zip_eq_zipWith, List.getElem?_zipWith]
  have hlen : (bfillVals (rows.map fun r => (dayKey r, colVal r c))).length = rows.length := by
    rw [bfillVals_length, List.length_map]
  rcases h : rows[i]? with _ | r
  · have hge : rows.length ≤ i := List.getElem?_eq_none_iff.mp h
    have h2 : (bfillVals (rows.map fun r => (dayKey r, colVal r c)))[i]? = none := by
      rw [List.getElem?_eq_none_iff, hlen]; exact hge
    rw [h2]
    simp
  · have hlt : i < rows.length := by
      by_contra hge
      push_neg at hge
      rw [List.getElem?_eq_none hge] at h
      simp at h
    have h2 : i < (bfillVals (rows.map fun r => (dayKey r, colVal r c))).length := by
      rw [hlen]; exact hlt
    rw [List.getElem?_eq_getElem h2]
    simp

theorem colVal_lt_of_some {r : URow} {c : Nat} {x : Rat} (h : colVal r c = some x) :
    c < r.vals.length := by
  by_contra hge
  push_neg at hge
  unfold colVal at h
  rw [List.getD_eq_getElem?_getD, List.getElem?_eq_none hge] at h
  simp at h

theorem frameStep_bfillCol (c : Nat) : FrameStep (bfillCol c) := by
  intro rows i r hr
  refine ⟨setVal r c (((bfillVals (keyedCol c rows))[i]?).getD none), ?_, rfl, rfl, rfl,
    rfl, rfl, by simp [setVal], ?_⟩
  · rw [bfillCol_getElem?, hr]
    rfl
  · intro c2 x hx
    by_cases hcc : c = c2
    · subst hcc
      have hk : (keyedCol c rows)[i]? = some (dayKey r, colVal r c) := by
        unfold keyedCol
        rw [List.getElem?_map, hr]
        rfl
      have hb := bfillVals_getElem? (keyedCol c rows) i
      rw [hk, hx] at hb
      simp only [Option.map_some'] at hb
      rw [hb]
      simp only [Option.getD_some]
      rw [colVal_setVal_self r _ (colVal_lt_of_some hx)]
    · rw [colVal_setVal_ne hcc]
      exact hx

theorem frameStep_comp {f g : List URow → List URow} (hf : FrameStep f) (hg : FrameStep g) :
    FrameStep (fun rows => f (g rows)) := by
  intro rows i r hr
  obtain ⟨r2, h2, hd2, hy2, hm2, hdd2, hh2, hl2, hv2⟩ := hg rows i r hr
  obtain ⟨r3, h3, hd3, hy3, hm3, hdd3, hh3, hl3, hv3⟩ := hf (g rows) i r2 h2
  exact ⟨r3, h3, by rw [hd3, hd2], by rw [hy3, hy2], by rw [hm3, hm2], by rw [hdd3, hdd2],
    by rw [hh3, hh2], by rw [hl3, hl2], fun c x hx => hv3 c x (hv2 c x hx)⟩

theorem frameStep_bfillAll : FrameStep bfillAll := by
  have h := frameStep_comp (frameStep_bfillCol 4) (frameStep_comp (frameStep_bfillCol 3)
    (frameStep_comp (frameStep_bfillCol 2) (frameStep_comp (frameStep_bfillCol 1)
      (frameStep_bfillCol 0))))
  intro rows i r hr
  unfold bfillAll
  exact h rows i r hr

theorem bfillAll_length (rows : List URow) : (bfillAll rows).length = rows.length := by
  simp [bfillAll, bfillCol_length]

/-- C7: the sentinel-normalization step (line 66,
`data_df.replace(-999, np.nan)`) is applied after the gap-repair pass —
it is the last stage of the ETL pipeline — and on any table it maps
every ride wait cell holding exactly -999 to null, leaves every other
wait cell and every non-wait field unchanged, and leaves no occurrence
of -999 in any ride wait cell of the resulting table. -/
theorem C7_sentinel_normalization (d e p s n : List RawRecord) (rows : List URow) (i : Nat) :
    unify d e p s n = replaceSentinel (bfillAll (sortValues (deriveCalendar
      (unifyMerge (dropnaSPOSTMIN d) (dropnaSPOSTMIN e) (dropnaSPOSTMIN p)
        (dropnaSPOSTMIN s) (dropnaSPOSTMIN n)))))
    ∧ (replaceSentinel rows).length = rows.length
    ∧ ((replaceSentinel rows).getD i default).datetime = (rows.getD i default).datetime
    ∧ ((replaceSentinel rows).getD i default).year = (rows.getD i default).year
    ∧ ((replaceSentinel rows).getD i default).month = (rows.getD i default).month
    ∧ ((replaceSentinel rows).getD i default).day = (rows.getD i default).day
    ∧ ((replaceSentinel rows).getD i default).hour = (rows.getD i default).hour
    ∧ (∀ c, colVal ((replaceSentinel rows).getD i default) c =
        if colVal (rows.getD i default) c = some (-999) then none
        else colVal (rows.getD i default) c)
    ∧ ∀ c, colVal ((replaceSentinel rows).getD i default) c ≠ some (-999) := by
  refine ⟨rfl, by simp [replaceSentinel], ?_, ?_, ?_, ?_, ?_, ?_, ?_⟩
  · rw [replaceSentinel_getD]
  · rw [replaceSentinel_getD]
  · rw [replaceSentinel_getD]
  · rw [replaceSentinel_getD]
  · rw [replaceSentinel_getD]
  · intro c
    rw [replaceSentinel_getD, colVal_sentinelMap]
  · intro c
    rw [replaceSentinel_getD, colVal_sentinelMap]
    split
    · simp
    · next h => exact h

/-- C10: the backward-fill pass (lines 56-57) does not add, remove or
reorder rows — the table keeps its length and each position keeps its
row's datetime, calendar fields and column width — and it modifies only
null cells: every wait cell that is non-null before the fill (the -999
sentinel cells included, since -999 is an ordinary non-null float at
this stage) holds the same value after it. -/
theorem C10_bfill_only_fills_nulls (rows : List URow) :
    (bfillAll rows).length = rows.length
    ∧ ∀ (i : Nat) (r : URow), rows[i]? = some r → ∃ r2, (bfillAll rows)[i]? = some r2 ∧
        r2.datetime = r.datetime ∧ r2.year = r.year ∧ r2.month = r.month ∧
        r2.day = r.day ∧ r2.hour = r.hour ∧ r2.vals.length = r.vals.length ∧
        ∀ (c : Nat) (x : Rat), colVal r c = some x → colVal r2 c = some x :=
  ⟨bfillAll_length rows, fun i r hr => frameStep_bfillAll rows i r hr⟩

/-- Witness for C10 at a concrete table: the hypothesis
`sampleTable[0]? = some row1` holds and the frame conclusion follows by
applying the theorem there. -/
theorem C10_bfill_only_fills_nulls_witness :
    sampleTable[0]? = some row1
    ∧ ∃ r2, (bfillAll sampleTable)[0]? = some r2 ∧
        r2.datetime = row1.datetime ∧ r2.year = row1.year ∧ r2.month = row1.month ∧
        r2.day = row1.day ∧ r2.hour = row1.hour ∧ r2.vals.length = row1.vals.length ∧
        ∀ (c : Nat) (x : Rat), colVal row1 c = some x → colVal r2 c = some x :=
  ⟨by decide, (C10_bfill_only_fills_nulls sampleTable).2 0 row1 (by decide)⟩

/-- C9: the chart callback is a pure read of the process-wide table —
no operation in `update_charts` carries `inplace=True`, so the table
after a call is the table before it, and a second call on the resulting
state with the same ride selector and date produces the identical
figure pair. -/
theorem C9_aggregation_pure (table : List URow) (ride : String) (d : Timestamp) :
    (updateChartsSt table ride d).2 = table
    ∧ (updateChartsSt (updateChartsSt table ride d).2 ride d).1 = (updateChartsSt table ride d).1 :=
  ⟨rfl, rfl⟩

/-- C5: the aggregation filter (lines 176 and 190) keeps exactly the
rows whose `Day` and `Month` columns equal the picked date's day and
month — the picked date's year is never consulted — so two dates that
agree on day and month produce the same filtered rows and the same
charts. -/
theorem C5_day_month_filter (table : List URow) (d d2 : Timestamp) (ride : String)
    (hd : d.day = d2.day) (hm : d.month = d2.month) :
    (∀ r : URow, r ∈ filterDM table d ↔ r ∈ table ∧ (r.day = d.day ∧ r.month = d.month))
    ∧ filterDM table d = filterDM table d2
    ∧ updateCharts table ride d = updateCharts table ride d2 := by
  have hf : filterDM table d = filterDM table d2 := by
    unfold filterDM
    refine List.filter_congr fun r _ => ?_
    rw [hd, hm]
  refine ⟨?_, hf, ?_⟩
  · intro r
    simp [filterDM, List.mem_filter]
  · unfold updateCharts
    rw [hf]

/-- Witness for C5 at concrete inputs: July 4th of 2021 and of 2022
agree on day and month, so the charts coincide. -/
theorem C5_day_month_filter_witness :
    d2021.day = d2022.day ∧ d2021.month = d2022.month
    ∧ ((∀ r : URow, r ∈ filterDM sampleTable d2021 ↔
          r ∈ sampleTable ∧ (r.day = d2021.day ∧ r.month = d2021.month))
      ∧ filterDM sampleTable d2021 = filterDM sampleTable d2022
      ∧ updateCharts sampleTable "All" d2021 = updateCharts sampleTable "All" d2022) :=
  ⟨rfl, rfl, C5_day_month_filter sampleTable d2021 d2022 "All" rfl rfl⟩

theorem hourlyTrace_nil (c : Nat) (nm : Option String) :
    hourlyTrace [] c nm = ⟨[], [], nm⟩ := rfl

theorem yearlyTrace_nil (c : Nat) (nm : Option String) :
    yearlyTrace [] c nm = ⟨[], [], nm⟩ := rfl

/-- C3 counterexample: with an unknown ride selector the callback does
not return empty chart series — `data.groupby(["Hour"])[ride]` on
line 192 raises a `KeyError` (modelled by `none`), so the claim fails
at this concrete input. -/
theorem C3_unknown_ride_raises :
    updateCharts sampleTable "SPOSTMIN_bogus" dEmpty = none := rfl

/-- C3 amended: an unknown ride selector raises (`KeyError` on the
groupby column lookup at line 192, modelled by `none`) instead of
returning empty series.  A date outside the supported window is
accepted but does not necessarily yield empty series: the filter never
reads the year, so such a date behaves exactly like any date with the
same day and month — only when no row matches that day/month pair are
the returned charts' traces all empty. -/
theorem C3_empty_date_unknown_ride (table : List URow) (d d2 : Timestamp) (ride : String) :
    (ride ≠ "All" → colNames.findIdx? (fun s => s = ride) = none →
      updateCharts table ride d = none)
    ∧ (d.day = d2.day → d.month = d2.month →
        updateCharts table ride d = updateCharts table ride d2)
    ∧ (filterDM table d = [] →
        ∀ lc bc, updateCharts table ride d = some (lc, bc) →
          ∀ tr ∈ lc ++ bc, tr.x = [] ∧ tr.y = [] ∧ tracePoints tr = []) := by
  refine ⟨?_, ?_, ?_⟩
  · intro hride hfind
    unfold updateCharts
    rw [if_neg hride, hfind]
  · intro hd hm
    have hf2 : filterDM table d = filterDM table d2 := by
      unfold filterDM
      refine List.filter_congr fun r _ => ?_
      rw [hd, hm]
    unfold updateCharts
    rw [hf2]
  · intro hf lc bc hu tr htr
    unfold updateCharts at hu
    by_cases hr : ride = "All"
    · rw [if_pos hr, hf] at hu
      injection hu with hu
      injection hu with h1 h2
      subst h1
      subst h2
      rcases List.mem_append.mp htr with h | h
      · obtain ⟨r0, _, hr0⟩ := List.mem_map.mp h
        rw [hourlyTrace_nil] at hr0
        subst hr0
        exact ⟨rfl, rfl, rfl⟩
      · obtain ⟨r0, _, hr0⟩ := List.mem_map.mp h
        rw [yearlyTrace_nil] at hr0
        subst hr0
        exact ⟨rfl, rfl, rfl⟩
    · rw [if_neg hr] at hu
      rcases hfind : colNames.findIdx? (fun s => s = ride) with _ | c
      · rw [hfind] at hu
        exact Option.noConfusion hu
      · rw [hfind, hf] at hu
        injection hu with hu
        injection hu with h1 h2
        subst h1
        subst h2
        rcases List.mem_append.mp htr with h | h
        · rw [List.mem_singleton] at h
          subst h
          exact ⟨rfl, rfl, rfl⟩
        · rw [List.mem_singleton] at h
          subst h
          exact ⟨rfl, rfl, rfl⟩

/-- Witness for C3: the bogus selector raises (`none`); the
out-of-window date 2023-07-04 behaves exactly like 2021-07-04 on a
table holding July-4th rows (and that result is not empty); and a
matching-free date yields traces that are all empty. -/
theorem C3_empty_date_unknown_ride_witness :
    updateCharts sampleTable "SPOSTMIN_bogus" dEmpty = none
    ∧ (dmis.day = d2021.day ∧ dmis.month = d2021.month
      ∧ updateCharts misalignTable "All" dmis = updateCharts misalignTable "All" d2021
      ∧ filterDM misalignTable dmis ≠ [])
    ∧ filterDM sampleTable dEmpty = []
    ∧ ∀ tr ∈ (((List.range 5).map fun r =>
          hourlyTrace (filterDM sampleTable dEmpty) r (some (rideNames.getD r ""))) ++
        ((List.range 5).map fun r =>
          yearlyTrace (filterDM sampleTable dEmpty) r (some (rideNames.getD r "")))),
        tr.x = [] ∧ tr.y = [] ∧ tracePoints tr = [] :=
  ⟨(C3_empty_date_unknown_ride sampleTable dEmpty dEmpty "SPOSTMIN_bogus").1
     (by decide) (by decide),
   ⟨by decide, by decide,
    (C3_empty_date_unknown_ride misalignTable dmis d2021 "All").2.1 (by decide) (by decide),
    by decide⟩,
   by decide,
   fun tr htr => (C3_empty_date_unknown_ride sampleTable dEmpty dEmpty "All").2.2 (by decide)
     ((List.range 5).map fun r =>
        hourlyTrace (filterDM sampleTable dEmpty) r (some (rideNames.getD r "")))
     ((List.range 5).map fun r =>
        yearlyTrace (filterDM sampleTable dEmpty) r (some (rideNames.getD r "")))
     rfl tr htr⟩

/-- C8 counterexample: in the single-ride branch the bar trace is built
without a `name` argument (line 206: `go.Bar(x = sorted, y = means)`),
so its legend label is empty, not the ride's display name — here the
line chart's labels are `[some "Dinosaur"]` but the bar chart's are
`[none]`. -/
theorem C8_bar_unlabeled_counterexample :
    (updateCharts sampleTable "SPOSTMIN_dino" dJune).map
        (fun fg => (fg.1.map Trace.label, fg.2.map Trace.label))
      = some ([some "Dinosaur"], [none]) := rfl

/-- C8 amended: with "All" selected both charts carry five traces, one
per ride, each labeled with the ride's display name; with a single ride
selected each chart carries exactly one trace, the hourly line trace
labeled with the ride's display name but the yearly bar trace carrying
no label (line 206 passes no `name`). -/
theorem C8_series_labels (table : List URow) (d : Timestamp) (ride : String) (c : Nat) :
    (∀ lc bc, updateCharts table "All" d = some (lc, bc) →
        lc.map Trace.label = rideNames.map some ∧ bc.map Trace.label = rideNames.map some
        ∧ lc.length = 5 ∧ bc.length = 5)
    ∧ (colNames.findIdx? (fun s => s = ride) = some c →
        ∀ lc bc, updateCharts table ride d = some (lc, bc) →
          lc.map Trace.label = [some (rideNames.getD c "")]
          ∧ bc.map Trace.label = [none]
          ∧ lc.length = 1 ∧ bc.length = 1) := by
  constructor
  · intro lc bc hu
    unfold updateCharts at hu
    rw [if_pos rfl] at hu
    injection hu with hu
    injection hu with h1 h2
    subst h1
    subst h2
    refine ⟨?_, ?_, by simp, by simp⟩
    · rw [List.map_map]
      rfl
    · rw [List.map_map]
      rfl
  · intro hfind lc bc hu
    unfold updateCharts at hu
    by_cases hr : ride = "All"
    · rw [hr] at hfind
      have hnone : colNames.findIdx? (fun s => s = "All") = none := by decide
      rw [hnone] at hfind
      exact Option.noConfusion hfind
    · rw [if_neg hr, hfind] at hu
      injection hu with hu
      injection hu with h1 h2
      subst h1
      subst h2
      exact ⟨rfl, rfl, rfl, rfl⟩

/-- Witness for C8 at concrete inputs: both branches applied at the
sample table with their hypotheses discharged. -/
theorem C8_series_labels_witness :
    colNames.findIdx? (fun s => s = "SPOSTMIN_dino") = some 0
    ∧ ([hourlyTrace (filterDM sampleTable dJune) 0 (some (rideNames.getD 0 ""))].map Trace.label
        = [some (rideNames.getD 0 "")]
      ∧ [yearlyTrace (filterDM sampleTable dJune) 0 none].map Trace.label = [none]
      ∧ [hourlyTrace (filterDM sampleTable dJune) 0 (some (rideNames.getD 0 ""))].length = 1
      ∧ [yearlyTrace (filterDM sampleTable dJune) 0 none].length = 1) :=
  ⟨by decide,
   (C8_series_labels sampleTable dJune "SPOSTMIN_dino" 0).2 (by decide)
     [hourlyTrace (filterDM sampleTable dJune) 0 (some (rideNames.getD 0 ""))]
     [yearlyTrace (filterDM sampleTable dJune) 0 none] rfl⟩

theorem sortedDistinct_mem (l : List Int) (k : Int) : k ∈ sortedDistinct l ↔ k ∈ l := by
  unfold sortedDistinct
  rw [(List.perm_insertionSort _ _).mem_iff, List.mem_dedup]

theorem sortedDistinct_nodup (l : List Int) : (sortedDistinct l).Nodup :=
  (List.perm_insertionSort _ _).nodup_iff.mpr (List.nodup_dedup l)

theorem sortedDistinct_sorted (l : List Int) :
    List.Sorted (fun a b => a ≤ b) (sortedDistinct l) :=
  List.sorted_insertionSort _ _

theorem sortedDistinct_sorted_lt (l : List Int) :
    List.Sorted (fun a b => a < b) (sortedDistinct l) :=
  List.Sorted.lt_of_le (sortedDistinct_sorted l) (sortedDistinct_nodup l)

theorem groupMeans_snd (rows : List URow) (key : URow → Int) (c : Nat) :
    (groupMeans rows key c).map Prod.snd =
      (sortedDistinct (rows.map key)).map fun k => meanOpt (groupVals rows key k c) := by
  unfold groupMeans
  rw [List.map_map]
  rfl

theorem tracePoints_graph (ks : List Int) (f : Int → Option Rat) (nm : Option String) :
    tracePoints ⟨ks, ks.map f, nm⟩ = ks.filterMap fun k => (f k).map fun v => (k, v) := by
  unfold tracePoints
  have hz := List.zip_map' id f ks
  rw [List.map_id] at hz
  simp only
  rw [hz, List.filterMap_map]
  rfl

theorem mem_filterMap_graph (ks : List Int) (f : Int → Option Rat) (h : Int) (m : Rat) :
    ((h, m) ∈ ks.filterMap fun k => (f k).map fun v => (k, v)) ↔ h ∈ ks ∧ f h = some m := by
  rw [List.mem_filterMap]
  constructor
  · rintro ⟨k, hk, hmap⟩
    rcases hf : f k with _ | v
    · rw [hf] at hmap
      exact Option.noConfusion hmap
    · rw [hf] at hmap
      injection hmap with hmap
      obtain ⟨h1, h2⟩ := Prod.mk.injEq .. ▸ hmap
      subst h1
      subst h2
      exact ⟨hk, hf⟩
  · rintro ⟨hk, hf⟩
    exact ⟨h, hk, by rw [hf]; rfl⟩

theorem fsts_filterMap_graph (ks : List Int) (f : Int → Option Rat) :
    (ks.filterMap fun k => (f k).map fun v => (k, v)).map Prod.fst =
      ks.filter fun k => (f k).isSome := by
  induction ks with
  | nil => rfl
  | cons k tl ih => cases hf : f k <;> simp [hf, ih]

theorem meanOpt_eq_some (l : List Rat) (m : Rat) :
    meanOpt l = some m ↔ l ≠ [] ∧ m = l.sum / l.length := by
  by_cases hl : l = []
  · subst hl
    simp [meanOpt]
  · simp only [meanOpt, List.isEmpty_eq_true, hl, if_false, ne_eq, not_false_eq_true,
      true_and, Option.some_inj]
    exact eq_comm

theorem groupVals_ne_nil_mem {rows : List URow} {key : URow → Int} {k : Int} {c : Nat}
    (h : groupVals rows key k c ≠ []) : k ∈ rows.map key := by
  unfold groupVals at h
  obtain ⟨x, hx⟩ := List.exists_mem_of_ne_nil _ h
  obtain ⟨r, hr, _⟩ := List.mem_filterMap.mp hx
  obtain ⟨hrmem, hrk⟩ := List.mem_filter.mp hr
  rw [List.mem_map]
  exact ⟨r, hrmem, by simpa using hrk⟩

theorem tracePoints_yearlyTrace (data : List URow) (c : Nat) (nm : Option String) :
    tracePoints (yearlyTrace data c nm) =
      (sortedDistinct (data.map fun r => r.year)).filterMap fun k =>
        (meanOpt (groupVals data (fun r => r.year) k c)).map fun v => (k, v) := by
  unfold yearlyTrace
  rw [groupMeans_snd]
  exact tracePoints_graph _ _ _

/-- The CPython set model reproduces the iteration orders observed by
running CPython 3 on the corresponding insertion sequences, including
the non-ascending collision cases and the 4x table growth at the fifth
insert (which restores ascending order for hour-sized values). -/
theorem pySetList_matches_cpython :
    pySetList [9, 10, 1, 2] = [9, 10, 2, 1]
    ∧ pySetList [1, 2, 9, 10] = [1, 2, 10, 9]
    ∧ pySetList [10, 11] = [10, 11]
    ∧ pySetList [0, 1, 2, 3] = [0, 1, 2, 3]
    ∧ pySetList [5, 13, 21, 2] = [2, 13, 21, 5]
    ∧ pySetList [1, 9, 17, 3] = [1, 3, 9, 17]
    ∧ pySetList [9, 10, 1, 2, 14] = [1, 2, 9, 10, 14]
    ∧ pySetList [7, 15, 23, 6] = [15, 23, 6, 7]
    ∧ pySetList [0, 8, 16, 3] = [0, 8, 3, 16]
    ∧ pySetList [3, 11, 19, 2] = [11, 19, 2, 3]
    ∧ pySetList [1, 2, 3, 4, 5, 6, 7, 8, 9] = [1, 2, 3, 4, 5, 6, 7, 8, 9]
    ∧ pySetList [23, 22, 21, 20] = [20, 21, 22, 23]
    ∧ pySetList [9, 1] = [9, 1]
    ∧ pySetList [10, 2, 18] = [18, 10, 2] := by
  decide

/-- C4 counterexample: the line chart's x is `list(set(data["Hour"]))`
in CPython set-iteration order while its y is the groupby means Series
in ascending hour order, and nothing re-aligns them.  With July-4th
rows of hours 9, 10 (year 2021) and 1, 2 (year 2022) the set iterates
as [9, 10, 2, 1], so the returned trace pairs hour 9 with 10 — the
mean of hour 1's group — and not with 90, the mean of hour 9's own
group, falsifying the claimed pairing at this concrete input. -/
theorem C4_misaligned_hours_counterexample :
    (updateCharts misalignTable "SPOSTMIN_dino" dmis).map Prod.fst =
      some [hourlyTrace (filterDM misalignTable dmis) 0 (some "Dinosaur")]
    ∧ (hourlyTrace (filterDM misalignTable dmis) 0 (some "Dinosaur")).x = [9, 10, 2, 1]
    ∧ groupVals (filterDM misalignTable dmis) (fun r => r.hour) 9 0 = [90]
    ∧ ((9 : Int), (10 : Rat)) ∈
        tracePoints (hourlyTrace (filterDM misalignTable dmis) 0 (some "Dinosaur"))
    ∧ ((9 : Int), (90 : Rat)) ∉
        tracePoints (hourlyTrace (filterDM misalignTable dmis) 0 (some "Dinosaur")) := by
  have hx : pySetList ((filterDM misalignTable dmis).map fun r => r.hour) = [9, 10, 2, 1] := by
    decide
  have hsd : sortedDistinct ((filterDM misalignTable dmis).map fun r => r.hour) =
      [1, 2, 9, 10] := by decide
  have h1 : groupVals (filterDM misalignTable dmis) (fun r => r.hour) 1 0 = [10] := by decide
  have h2 : groupVals (filterDM misalignTable dmis) (fun r => r.hour) 2 0 = [20] := by decide
  have h9 : groupVals (filterDM misalignTable dmis) (fun r => r.hour) 9 0 = [90] := by decide
  have h10 : groupVals (filterDM misalignTable dmis) (fun r => r.hour) 10 0 = [100] := by
    decide
  have hy : (groupMeans (filterDM misalignTable dmis) (fun r => r.hour) 0).map Prod.snd =
      [some 10, some 20, some 90, some 100] := by
    unfold groupMeans
    rw [hsd]
    simp only [List.map_cons, List.map_nil, h1, h2, h9, h10]
    norm_num [meanOpt, List.sum_cons, List.sum_nil]
  have htr : hourlyTrace (filterDM misalignTable dmis) 0 (some "Dinosaur") =
      ⟨[9, 10, 2, 1], [some 10, some 20, some 90, some 100], some "Dinosaur"⟩ := by
    unfold hourlyTrace
    rw [hx, hy]
  refine ⟨rfl, ?_, h9, ?_, ?_⟩
  · rw [htr]
  · rw [htr]
    decide
  · rw [htr]
    decide

/-- C4 (amended): the hourly series of every chart is an hourly trace
of the day/month-filtered rows; its y-values are the per-hour
null-ignoring means in ascending hour order (an all-null group yields a
null mean), and its x-values are `list(set(...))` of the rows' hours in
CPython set-iteration order.  Only when that order happens to be
ascending — which the program does not guarantee — does the trace pair
each hour owning a non-null value with its own group's mean, with
all-null groups contributing no plotted point. -/
theorem C4_hourly_series (table : List URow) (d : Timestamp) (ride : String) (c : Nat)
    (nm : Option String) :
    ((updateCharts table "All" d).map Prod.fst =
        some ((List.range 5).map fun r =>
          hourlyTrace (filterDM table d) r (some (rideNames.getD r ""))))
    ∧ (colNames.findIdx? (fun s => s = ride) = some c →
        (updateCharts table ride d).map Prod.fst =
          some [hourlyTrace (filterDM table d) c (some (rideNames.getD c ""))])
    ∧ (hourlyTrace (filterDM table d) c nm).x =
        pySetList ((filterDM table d).map fun r => r.hour)
    ∧ (hourlyTrace (filterDM table d) c nm).y =
        (sortedDistinct ((filterDM table d).map fun r => r.hour)).map
          (fun k => meanOpt (groupVals (filterDM table d) (fun r => r.hour) k c))
    ∧ (∀ (h : Int) (m : Rat),
        meanOpt (groupVals (filterDM table d) (fun r => r.hour) h c) = some m ↔
          (groupVals (filterDM table d) (fun r => r.hour) h c ≠ []
            ∧ m = (groupVals (filterDM table d) (fun r => r.hour) h c).sum /
                (groupVals (filterDM table d) (fun r => r.hour) h c).length))
    ∧ ((hourlyTrace (filterDM table d) c nm).x =
        sortedDistinct ((filterDM table d).map fun r => r.hour) →
        (∀ h : Int, h ∈ (hourlyTrace (filterDM table d) c nm).x ↔
          ∃ r ∈ filterDM table d, r.hour = h)
        ∧ (∀ (h : Int) (m : Rat),
            ((h, m) ∈ tracePoints (hourlyTrace (filterDM table d) c nm)) ↔
              (groupVals (filterDM table d) (fun r => r.hour) h c ≠ []
                ∧ m = (groupVals (filterDM table d) (fun r => r.hour) h c).sum /
                    (groupVals (filterDM table d) (fun r => r.hour) h c).length))
        ∧ ((tracePoints (hourlyTrace (filterDM table d) c nm)).map Prod.fst).Nodup) := by
  refine ⟨?_, ?_, rfl, groupMeans_snd _ _ _, ?_, ?_⟩
  · unfold updateCharts
    rw [if_pos rfl]
    rfl
  · intro hfind
    unfold updateCharts
    by_cases hr : ride = "All"
    · rw [hr] at hfind
      have hnone : colNames.findIdx? (fun s => s = "All") = none := by decide
      rw [hnone] at hfind
      exact Option.noConfusion hfind
    · rw [if_neg hr, hfind]
      rfl
  · intro h m
    exact meanOpt_eq_some _ _
  · intro hx
    have hy : (hourlyTrace (filterDM table d) c nm).y =
        (sortedDistinct ((filterDM table d).map fun r => r.hour)).map
          (fun k => meanOpt (groupVals (filterDM table d) (fun r => r.hour) k c)) :=
      groupMeans_snd _ _ _
    have htp : tracePoints (hourlyTrace (filterDM table d) c nm) =
        (sortedDistinct ((filterDM table d).map fun r => r.hour)).filterMap
          (fun k => (meanOpt (groupVals (filterDM table d) (fun r => r.hour) k c)).map
            fun v => (k, v)) := by
      unfold tracePoints
      rw [hx, hy]
      have hz := List.zip_map' id
        (fun k => meanOpt (groupVals (filterDM table d) (fun r => r.hour) k c))
        (sortedDistinct ((filterDM table d).map fun r => r.hour))
      rw [List.map_id] at hz
      rw [hz, List.filterMap_map]
      rfl
    refine ⟨?_, ?_, ?_⟩
    · intro h
      rw [hx, sortedDistinct_mem, List.mem_map]
    · intro h m
      rw [htp, mem_filterMap_graph, meanOpt_eq_some]
      constructor
      · rintro ⟨_, hne, hm⟩
        exact ⟨hne, hm⟩
      · rintro ⟨hne, hm⟩
        exact ⟨(sortedDistinct_mem _ _).mpr (groupVals_ne_nil_mem hne), hne, hm⟩
    · rw [htp, fsts_filterMap_graph]
      exact (sortedDistinct_nodup _).filter _

/-- Witness for C4: the single-ride hypothesis discharged at the
everest selector, and the alignment hypothesis discharged at the sample
table, whose two hours 10, 11 do iterate ascending. -/
theorem C4_hourly_series_witness :
    ((updateCharts sampleTable "SPOSTMIN_everest" dJune).map Prod.fst =
      some [hourlyTrace (filterDM sampleTable dJune) 1 (some (rideNames.getD 1 ""))])
    ∧ (hourlyTrace (filterDM sampleTable dJune) 1 none).x =
        sortedDistinct ((filterDM sampleTable dJune).map fun r => r.hour)
    ∧ ((∀ h : Int, h ∈ (hourlyTrace (filterDM sampleTable dJune) 1 none).x ↔
          ∃ r ∈ filterDM sampleTable dJune, r.hour = h)
      ∧ (∀ (h : Int) (m : Rat),
          ((h, m) ∈ tracePoints (hourlyTrace (filterDM sampleTable dJune) 1 none)) ↔
            (groupVals (filterDM sampleTable dJune) (fun r => r.hour) h 1 ≠ []
              ∧ m = (groupVals (filterDM sampleTable dJune) (fun r => r.hour) h 1).sum /
                  (groupVals (filterDM sampleTable dJune) (fun r => r.hour) h 1).length))
      ∧ ((tracePoints (hourlyTrace (filterDM sampleTable dJune) 1 none)).map Prod.fst).Nodup) :=
  ⟨(C4_hourly_series sampleTable dJune "SPOSTMIN_everest" 1 none).2.1 (by decide),
   by decide,
   (C4_hourly_series sampleTable dJune "SPOSTMIN_everest" 1 none).2.2.2.2.2 (by decide)⟩

/-- C6: the yearly series of every chart is a yearly trace of the
day/month-filtered rows; its x values are the distinct years of the
filtered rows in strictly ascending order, and each year owning at
least one non-null cell of the ride's column is paired with the
arithmetic mean of that year's non-null cells (so [10, null, 20]
averages to 15, nulls ignored). -/
theorem C6_yearly_series (table : List URow) (d : Timestamp) (ride : String) (c : Nat)
    (nm : Option String) :
    ((updateCharts table "All" d).map Prod.snd =
        some ((List.range 5).map fun r =>
          yearlyTrace (filterDM table d) r (some (rideNames.getD r ""))))
    ∧ (colNames.findIdx? (fun s => s = ride) = some c →
        (updateCharts table ride d).map Prod.snd =
          some [yearlyTrace (filterDM table d) c none])
    ∧ (∀ (y : Int) (m : Rat),
        ((y, m) ∈ tracePoints (yearlyTrace (filterDM table d) c nm)) ↔
          (groupVals (filterDM table d) (fun r => r.year) y c ≠ []
            ∧ m = (groupVals (filterDM table d) (fun r => r.year) y c).sum /
                (groupVals (filterDM table d) (fun r => r.year) y c).length))
    ∧ (∀ y : Int, y ∈ (yearlyTrace (filterDM table d) c nm).x ↔
        ∃ r ∈ filterDM table d, r.year = y)
    ∧ List.Sorted (fun a b => a < b) (yearlyTrace (filterDM table d) c nm).x
    ∧ ((tracePoints (yearlyTrace (filterDM table d) c nm)).map Prod.fst).Nodup := by
  refine ⟨?_, ?_, ?_, ?_, ?_, ?_⟩
  · unfold updateCharts
    rw [if_pos rfl]
    rfl
  · intro hfind
    unfold updateCharts
    by_cases hr : ride = "All"
    · rw [hr] at hfind
      have hnone : colNames.findIdx? (fun s => s = "All") = none := by decide
      rw [hnone] at hfind
      exact Option.noConfusion hfind
    · rw [if_neg hr, hfind]
      rfl
  · intro y m
    rw [tracePoints_yearlyTrace, mem_filterMap_graph, meanOpt_eq_some]
    constructor
    · rintro ⟨_, hne, hm⟩
      exact ⟨hne, hm⟩
    · rintro ⟨hne, hm⟩
      exact ⟨(sortedDistinct_mem _ _).mpr (groupVals_ne_nil_mem hne), hne, hm⟩
  · intro y
    show y ∈ sortedDistinct ((filterDM table d).map fun r => r.year) ↔ _
    rw [sortedDistinct_mem, List.mem_map]
  · exact sortedDistinct_sorted_lt _
  · rw [tracePoints_yearlyTrace, fsts_filterMap_graph]
    exact (sortedDistinct_nodup _).filter _

/-- Witness for C6: the single-ride hypothesis discharged at the
concrete everest selector. -/
theorem C6_yearly_series_witness :
    (updateCharts sampleTable "SPOSTMIN_everest" dJune).map Prod.snd =
      some [yearlyTrace (filterDM sampleTable dJune) 1 none] :=
  (C6_yearly_series sampleTable dJune "SPOSTMIN_everest" 1 none).2.1 (by decide)

theorem nextVal_some_iff (k : Int × Int × Int) (rest : List ((Int × Int × Int) × Option Rat))
    (v : Rat) :
    nextInDay k rest = some v ↔
      ∃ (j : Nat) (p : (Int × Int × Int) × Option Rat),
        rest[j]? = some p ∧ p.1 = k ∧ p.2 = some v ∧
        ∀ (j2 : Nat) (p2 : (Int × Int × Int) × Option Rat),
          j2 < j → rest[j2]? = some p2 → p2.1 = k → p2.2 = none := by
  unfold nextInDay
  induction rest with
  | nil => simp
  | cons q tl ih =>
    by_cases hk : q.1 = k
    · rcases hq : q.2 with _ | x
      · rw [List.filter_cons_of_pos (by simpa using hk), List.filterMap_cons_none hq, ih]
        constructor
        · rintro ⟨j, p, hj, hpk, hpv, hmin⟩
          refine ⟨j + 1, p, by simpa using hj, hpk, hpv, ?_⟩
          intro j2 p2 hlt h2 hk2
          cases j2 with
          | zero =>
            rw [List.getElem?_cons_zero] at h2
            injection h2 with h2
            rw [← h2]
            exact hq
          | succ j3 =>
            rw [List.getElem?_cons_succ] at h2
            exact hmin j3 p2 (by omega) h2 hk2
        · rintro ⟨j, p, hj, hpk, hpv, hmin⟩
          cases j with
          | zero =>
            rw [List.getElem?_cons_zero] at hj
            injection hj with hj
            rw [← hj, hq] at hpv
            exact Option.noConfusion hpv
          | succ j3 =>
            rw [List.getElem?_cons_succ] at hj
            refine ⟨j3, p, hj, hpk, hpv, ?_⟩
            intro j2 p2 hlt h2 hk2
            exact hmin (j2 + 1) p2 (by omega) (by rw [List.getElem?_cons_succ]; exact h2) hk2
      · rw [List.filter_cons_of_pos (by simpa using hk), List.filterMap_cons_some hq]
        rw [List.head?_cons]
        constructor
        · intro hhead
          injection hhead with hxv
          exact ⟨0, q, by rw [List.getElem?_cons_zero], hk, by rw [hq, hxv],
            fun j2 p2 hlt _ _ => absurd hlt (Nat.not_lt_zero j2)⟩
        · rintro ⟨j, p, hj, hpk, hpv, hmin⟩
          cases j with
          | zero =>
            rw [List.getElem?_cons_zero] at hj
            injection hj with hj
            rw [← hj, hq] at hpv
            injection hpv with hxv
            rw [hxv]
          | succ j3 =>
            have h0 := hmin 0 q (by omega) (by rw [List.getElem?_cons_zero]) hk
            rw [hq] at h0
            exact Option.noConfusion h0
    · rw [List.filter_cons_of_neg (by simpa using hk), ih]
      constructor
      · rintro ⟨j, p, hj, hpk, hpv, hmin⟩
        refine ⟨j + 1, p, by simpa using hj, hpk, hpv, ?_⟩
        intro j2 p2 hlt h2 hk2
        cases j2 with
        | zero =>
          rw [List.getElem?_cons_zero] at h2
          injection h2 with h2
          rw [← h2] at hk2
          exact absurd hk2 hk
        | succ j3 =>
          rw [List.getElem?_cons_succ] at h2
          exact hmin j3 p2 (by omega) h2 hk2
      · rintro ⟨j, p, hj, hpk, hpv, hmin⟩
        cases j with
        | zero =>
          rw [List.getElem?_cons_zero] at hj
          injection hj with hj
          rw [← hj] at hpk
          exact absurd hpk hk
        | succ j3 =>
          rw [List.getElem?_cons_succ] at hj
          refine ⟨j3, p, hj, hpk, hpv, fun j2 p2 hlt h2 hk2 =>
            hmin (j2 + 1) p2 (by omega) (by rw [List.getElem?_cons_succ]; exact h2) hk2⟩

theorem nextVal_none_iff (k : Int × Int × Int) (rest : List ((Int × Int × Int) × Option Rat)) :
    nextInDay k rest = none ↔
      ∀ (j : Nat) (p : (Int × Int × Int) × Option Rat),
        rest[j]? = some p → p.1 = k → p.2 = none := by
  unfold nextInDay
  induction rest with
  | nil => simp
  | cons q tl ih =>
    by_cases hk : q.1 = k
    · rcases hq : q.2 with _ | x
      · rw [List.filter_cons_of_pos (by simpa using hk), List.filterMap_cons_none hq, ih]
        constructor
        · intro hall j p hj hk2
          cases j with
          | zero =>
            rw [List.getElem?_cons_zero] at hj
            injection hj with hj
            rw [← hj]
            exact hq
          | succ j3 =>
            rw [List.getElem?_cons_succ] at hj
            exact hall j3 p hj hk2
        · intro hall j p hj hk2
          exact hall (j + 1) p (by rw [List.getElem?_cons_succ]; exact hj) hk2
      · rw [List.filter_cons_of_pos (by simpa using hk), List.filterMap_cons_some hq]
        rw [List.head?_cons]
        constructor
        · intro h
          exact Option.noConfusion h
        · intro hall
          have h0 := hall 0 q (by rw [List.getElem?_cons_zero]) hk
          rw [hq] at h0
          exact Option.noConfusion h0
    · rw [List.filter_cons_of_neg (by simpa using hk), ih]
      constructor
      · intro hall j p hj hk2
        cases j with
        | zero =>
          rw [List.getElem?_cons_zero] at hj
          injection hj with hj
          rw [← hj] at hk2
          exact absurd hk2 hk
        | succ j3 =>
          rw [List.getElem?_cons_succ] at hj
          exact hall j3 p hj hk2
      · intro hall j p hj hk2
        exact hall (j + 1) p (by rw [List.getElem?_cons_succ]; exact hj) hk2

theorem lt_of_getElem?_some {α : Type} {l : List α} {i : Nat} {a : α} (h : l[i]? = some a) :
    i < l.length := by
  by_contra hge
  push_neg at hge
  rw [List.getElem?_eq_none hge] at h
  exact Option.noConfusion h

theorem keyedCol_bfillCol_ne (c c2 : Nat) (hne : c ≠ c2) (rows : List URow) :
    keyedCol c (bfillCol c2 rows) = keyedCol c rows := by
  apply List.ext_getElem?
  intro i
  unfold keyedCol
  rw [List.getElem?_map, List.getElem?_map, bfillCol_getElem?]
  rcases h : rows[i]? with _ | r
  · rfl
  · simp only [Option.map_some']
    rw [dayKey_setVal, colVal_setVal_ne (Ne.symm hne)]

theorem colsMap_bfillCol_ne (c c2 : Nat) (hne : c ≠ c2) (rows : List URow) :
    (bfillCol c2 rows).map (fun r => colVal r c) = rows.map fun r => colVal r c := by
  apply List.ext_getElem?
  intro i
  rw [List.getElem?_map, List.getElem?_map, bfillCol_getElem?]
  rcases h : rows[i]? with _ | r
  · rfl
  · simp only [Option.map_some']
    rw [colVal_setVal_ne (Ne.symm hne)]

theorem bfillCol_col_self (c : Nat) (rows : List URow)
    (hw : ∀ r ∈ rows, c < r.vals.length) :
    (bfillCol c rows).map (fun r => colVal r c) = bfillVals (keyedCol c rows) := by
  apply List.ext_getElem?
  intro i
  rw [List.getElem?_map, bfillCol_getElem?]
  rcases h : rows[i]? with _ | r
  · have hge : rows.length ≤ i := List.getElem?_eq_none_iff.mp h
    have hnone : (bfillVals (keyedCol c rows))[i]? = none := by
      rw [List.getElem?_eq_none_iff, bfillVals_length]
      unfold keyedCol
      rw [List.length_map]
      exact hge
    rw [hnone]
    rfl
  · have hlt := lt_of_getElem?_some h
    have hl2 : i < (bfillVals (keyedCol c rows)).length := by
      rw [bfillVals_length]
      unfold keyedCol
      rw [List.length_map]
      exact hlt
    rw [List.getElem?_eq_getElem hl2]
    simp only [Option.map_some', Option.getD_some]
    rw [colVal_setVal_self r _ (hw r (List.getElem?_mem h))]

theorem bfillCol_width (c2 n : Nat) (rows : List URow)
    (hw : ∀ r ∈ rows, r.vals.length = n) :
    ∀ r ∈ bfillCol c2 rows, r.vals.length = n := by
  intro r hr
  unfold bfillCol at hr
  obtain ⟨p, hp, hpr⟩ := List.mem_map.mp hr
  have hmem : p.1 ∈ rows := (List.of_mem_zip hp).1
  rw [← hpr]
  simp only [setVal, List.length_set]
  exact hw _ hmem

theorem bfillAll_col (c : Nat) (rows : List URow) (hc : c < 5)
    (hw : ∀ r ∈ rows, r.vals.length = 5) :
    (bfillAll rows).map (fun r => colVal r c) = bfillVals (keyedCol c rows) := by
  have hw0 := bfillCol_width 0 5 rows hw
  have hw1 := bfillCol_width 1 5 _ hw0
  have hw2 := bfillCol_width 2 5 _ hw1
  have hw3 := bfillCol_width 3 5 _ hw2
  have hwlt : ∀ (rs : List URow), (∀ r ∈ rs, r.vals.length = 5) →
      ∀ r ∈ rs, c < r.vals.length := by
    intro rs h r hr
    rw [h r hr]
    exact hc
  unfold bfillAll
  interval_cases c
  · rw [colsMap_bfillCol_ne 0 4 (by omega), colsMap_bfillCol_ne 0 3 (by omega),
      colsMap_bfillCol_ne 0 2 (by omega), colsMap_bfillCol_ne 0 1 (by omega),
      bfillCol_col_self 0 rows (hwlt rows hw)]
  · rw [colsMap_bfillCol_ne 1 4 (by omega), colsMap_bfillCol_ne 1 3 (by omega),
      colsMap_bfillCol_ne 1 2 (by omega),
      bfillCol_col_self 1 _ (hwlt _ hw0),
      keyedCol_bfillCol_ne 1 0 (by omega)]
  · rw [colsMap_bfillCol_ne 2 4 (by omega), colsMap_bfillCol_ne 2 3 (by omega),
      bfillCol_col_self 2 _ (hwlt _ hw1),
      keyedCol_bfillCol_ne 2 1 (by omega), keyedCol_bfillCol_ne 2 0 (by omega)]
  · rw [colsMap_bfillCol_ne 3 4 (by omega),
      bfillCol_col_self 3 _ (hwlt _ hw2),
      keyedCol_bfillCol_ne 3 2 (by omega), keyedCol_bfillCol_ne 3 1 (by omega),
      keyedCol_bfillCol_ne 3 0 (by omega)]
  · rw [bfillCol_col_self 4 _ (hwlt _ hw3),
      keyedCol_bfillCol_ne 4 3 (by omega), keyedCol_bfillCol_ne 4 2 (by omega),
      keyedCol_bfillCol_ne 4 1 (by omega), keyedCol_bfillCol_ne 4 0 (by omega)]

theorem keyedCol_getElem? (c : Nat) (s : List URow) (j : Nat) :
    (keyedCol c s)[j]? = (s[j]?).map fun r => (dayKey r, colVal r c) := by
  unfold keyedCol
  rw [List.getElem?_map]

theorem nextInDay_drop_some (s : List URow) (c : Nat) (i : Nat) (k : Int × Int × Int) (v : Rat) :
    nextInDay k ((keyedCol c s).drop (i + 1)) = some v ↔
      ∃ (j : Nat) (rj : URow), i < j ∧ s[j]? = some rj ∧ dayKey rj = k ∧ colVal rj c = some v ∧
        ∀ (j2 : Nat) (rj2 : URow), i < j2 → j2 < j → s[j2]? = some rj2 → dayKey rj2 = k →
          colVal rj2 c = none := by
  rw [nextVal_some_iff]
  constructor
  · rintro ⟨j, p, hj, hpk, hpv, hmin⟩
    rw [List.getElem?_drop, keyedCol_getElem?] at hj
    rcases hs : s[i + 1 + j]? with _ | rj
    · rw [hs] at hj
      exact Option.noConfusion hj
    · rw [hs] at hj
      injection hj with hj
      refine ⟨i + 1 + j, rj, by omega, hs, ?_, ?_, ?_⟩
      · rw [← hj] at hpk
        exact hpk
      · rw [← hj] at hpv
        exact hpv
      · intro j2 rj2 hi2 hj2 hs2 hk2
        have harith : i + 1 + (j2 - (i + 1)) = j2 := by omega
        have h2 : ((keyedCol c s).drop (i + 1))[j2 - (i + 1)]? =
            some (dayKey rj2, colVal rj2 c) := by
          rw [List.getElem?_drop, keyedCol_getElem?, harith, hs2]
          rfl
        exact hmin (j2 - (i + 1)) (dayKey rj2, colVal rj2 c) (by omega) h2 hk2
  · rintro ⟨j, rj, hij, hs, hk, hv, hmin⟩
    have harith : i + 1 + (j - (i + 1)) = j := by omega
    refine ⟨j - (i + 1), (dayKey rj, colVal rj c), ?_, hk, hv, ?_⟩
    · rw [List.getElem?_drop, keyedCol_getElem?, harith, hs]
      rfl
    · intro j2 p2 hlt h2 hk2
      rw [List.getElem?_drop, keyedCol_getElem?] at h2
      rcases hs2 : s[i + 1 + j2]? with _ | rj2
      · rw [hs2] at h2
        exact Option.noConfusion h2
      · rw [hs2] at h2
        injection h2 with h2
        have hc2 : colVal rj2 c = none := by
          have := hmin (i + 1 + j2) rj2 (by omega) (by omega) hs2 (by rw [← h2] at hk2; exact hk2)
          exact this
        rw [← h2]
        exact hc2

theorem nextInDay_drop_none (s : List URow) (c : Nat) (i : Nat) (k : Int × Int × Int) :
    nextInDay k ((keyedCol c s).drop (i + 1)) = none ↔
      ∀ (j : Nat) (rj : URow), i < j → s[j]? = some rj → dayKey rj = k →
        colVal rj c = none := by
  rw [nextVal_none_iff]
  constructor
  · intro hall j rj hij hs hk
    have harith : i + 1 + (j - (i + 1)) = j := by omega
    have h2 : ((keyedCol c s).drop (i + 1))[j - (i + 1)]? =
        some (dayKey rj, colVal rj c) := by
      rw [List.getElem?_drop, keyedCol_getElem?, harith, hs]
      rfl
    exact hall (j - (i + 1)) (dayKey rj, colVal rj c) h2 hk
  · intro hall j p hj hk
    rw [List.getElem?_drop, keyedCol_getElem?] at hj
    rcases hs : s[i + 1 + j]? with _ | rj
    · rw [hs] at hj
      exact Option.noConfusion hj
    · rw [hs] at hj
      injection hj with hj
      have := hall (i + 1 + j) rj (by omega) hs (by rw [← hj] at hk; exact hk)
      rw [← hj]
      exact this

theorem sortValues_sorted (t : List URow) : List.Sorted rowLE (sortValues t) :=
  List.sorted_insertionSort rowLE t

theorem sortValues_perm (t : List URow) : (sortValues t).Perm t :=
  List.perm_insertionSort rowLE t

theorem sortValues_strict (t : List URow) (hnd : (t.map fun r => r.datetime).Nodup) :
    ∀ (i j : Nat) (ri rj : URow), i < j → (sortValues t)[i]? = some ri →
      (sortValues t)[j]? = some rj →
      Timestamp.le ri.datetime rj.datetime ∧ ri.datetime ≠ rj.datetime := by
  intro i j ri rj hij hi hj
  obtain ⟨hib, hie⟩ := List.getElem?_eq_some_iff.mp hi
  obtain ⟨hjb, hje⟩ := List.getElem?_eq_some_iff.mp hj
  have hrel := List.pairwise_iff_getElem.mp (sortValues_sorted t) i j hib hjb hij
  rw [hie, hje] at hrel
  refine ⟨hrel, ?_⟩
  intro heq
  have hnd2 : ((sortValues t).map fun r => r.datetime).Nodup :=
    ((sortValues_perm t).map _).nodup_iff.mpr hnd
  have hmi : i < ((sortValues t).map fun r => r.datetime).length := by
    rw [List.length_map]
    exact hib
  have hmj : j < ((sortValues t).map fun r => r.datetime).length := by
    rw [List.length_map]
    exact hjb
  have hmapeq : ((sortValues t).map fun r => r.datetime)[i] =
      ((sortValues t).map fun r => r.datetime)[j] := by
    rw [List.getElem_map, List.getElem_map, hie, hje]
    exact heq
  have := hnd2.getElem_inj_iff.mp hmapeq
  omega

theorem bfillAll_colVal (c : Nat) (s : List URow) (hc : c < 5)
    (hw : ∀ r ∈ s, r.vals.length = 5) (i : Nat) (ri r2 : URow)
    (hi : s[i]? = some ri) (h2 : (bfillAll s)[i]? = some r2) :
    colVal r2 c = match colVal ri c with
      | some x => some x
      | none => nextInDay (dayKey ri) ((keyedCol c s).drop (i + 1)) := by
  have hcol : ((bfillAll s).map fun r => colVal r c)[i]? =
      (bfillVals (keyedCol c s))[i]? := by
    rw [bfillAll_col c s hc hw]
  rw [List.getElem?_map, h2, bfillVals_getElem?, keyedCol_getElem?, hi] at hcol
  simp only [Option.map_some'] at hcol
  rw [Option.some_inj] at hcol
  exact hcol

/-- C1: after the sort (line 50) the rows are in ascending timestamp
order (strictly, when timestamps are pairwise distinct), and the
backfill pass (lines 56-57) leaves every non-null wait cell unchanged
while giving each null cell the value of the nearest later row of the
same `(Year, Month, Day)` group whose cell is non-null — `some v` holds
exactly when such a row exists and every same-group row strictly
between them is null, and the cell stays null exactly when every later
same-group row is null.  Because the rows are sorted and timestamps
distinct, a later position is a chronologically later row. -/
theorem C1_backfill (t : List URow) (c : Nat) (hc : c < 5)
    (hw : ∀ r ∈ t, r.vals.length = 5)
    (hnd : (t.map fun r => r.datetime).Nodup) :
    List.Sorted rowLE (sortValues t)
    ∧ (∀ (i j : Nat) (ri rj : URow), i < j → (sortValues t)[i]? = some ri →
        (sortValues t)[j]? = some rj →
        Timestamp.le ri.datetime rj.datetime ∧ ri.datetime ≠ rj.datetime)
    ∧ (∀ (i : Nat) (ri r2 : URow), (sortValues t)[i]? = some ri →
        (bfillAll (sortValues t))[i]? = some r2 →
        (∀ x : Rat, colVal ri c = some x → colVal r2 c = some x)
        ∧ (colVal ri c = none →
            (∀ v : Rat, colVal r2 c = some v ↔
              ∃ (j : Nat) (rj : URow), i < j ∧ (sortValues t)[j]? = some rj ∧
                dayKey rj = dayKey ri ∧ colVal rj c = some v ∧
                ∀ (j2 : Nat) (rj2 : URow), i < j2 → j2 < j →
                  (sortValues t)[j2]? = some rj2 → dayKey rj2 = dayKey ri →
                  colVal rj2 c = none)
            ∧ (colVal r2 c = none ↔
                ∀ (j : Nat) (rj : URow), i < j → (sortValues t)[j]? = some rj →
                  dayKey rj = dayKey ri → colVal rj c = none))) := by
  have hw2 : ∀ r ∈ sortValues t, r.vals.length = 5 := fun r hr =>
    hw r ((sortValues_perm t).mem_iff.mp hr)
  refine ⟨sortValues_sorted t, sortValues_strict t hnd, ?_⟩
  intro i ri r2 hi h2
  have hval := bfillAll_colVal c (sortValues t) hc hw2 i ri r2 hi h2
  constructor
  · intro x hx
    rw [hx] at hval
    exact hval
  · intro hnone
    rw [hnone] at hval
    have hval2 : colVal r2 c =
        nextInDay (dayKey ri) ((keyedCol c (sortValues t)).drop (i + 1)) := hval
    constructor
    · intro v
      rw [hval2, nextInDay_drop_some]
    · rw [hval2, nextInDay_drop_none]

/-- Witness for C1 at the concrete sample table and the dino column. -/
theorem C1_backfill_witness :
    ((0 : Nat) < 5 ∧ (∀ r ∈ sampleTable, r.vals.length = 5)
      ∧ (sampleTable.map fun r => r.datetime).Nodup)
    ∧ (List.Sorted rowLE (sortValues sampleTable)
    ∧ (∀ (i j : Nat) (ri rj : URow), i < j → (sortValues sampleTable)[i]? = some ri →
        (sortValues sampleTable)[j]? = some rj →
        Timestamp.le ri.datetime rj.datetime ∧ ri.datetime ≠ rj.datetime)
    ∧ (∀ (i : Nat) (ri r2 : URow), (sortValues sampleTable)[i]? = some ri →
        (bfillAll (sortValues sampleTable))[i]? = some r2 →
        (∀ x : Rat, colVal ri 0 = some x → colVal r2 0 = some x)
        ∧ (colVal ri 0 = none →
            (∀ v : Rat, colVal r2 0 = some v ↔
              ∃ (j : Nat) (rj : URow), i < j ∧ (sortValues sampleTable)[j]? = some rj ∧
                dayKey rj = dayKey ri ∧ colVal rj 0 = some v ∧
                ∀ (j2 : Nat) (rj2 : URow), i < j2 → j2 < j →
                  (sortValues sampleTable)[j2]? = some rj2 → dayKey rj2 = dayKey ri →
                  colVal rj2 0 = none)
            ∧ (colVal r2 0 = none ↔
                ∀ (j : Nat) (rj : URow), i < j → (sortValues sampleTable)[j]? = some rj →
                  dayKey rj = dayKey ri → colVal rj 0 = none)))) :=
  ⟨⟨by decide, by decide, by decide⟩,
   C1_backfill sampleTable 0 (by decide) (by decide) (by decide)⟩

theorem lookupVal_eq_none {l : List CleanRecord} {ts : Timestamp}
    (h : ts ∉ l.map Prod.fst) : lookupVal l ts = none := by
  unfold lookupVal
  have hf : l.find? (fun p => decide (p.1 = ts)) = none := by
    rw [List.find?_eq_none]
    intro x hx
    simp only [decide_eq_true_eq]
    intro heq
    exact h (List.mem_map.mpr ⟨x, hx, heq⟩)
  rw [hf]
  rfl

theorem lookupVal_of_mem {l : List CleanRecord} (hl : (l.map Prod.fst).Nodup)
    {q : CleanRecord} (hq : q ∈ l) : lookupVal l q.1 = some q.2 := by
  induction l with
  | nil => exact absurd hq (List.not_mem_nil q)
  | cons a tl ih =>
    rw [List.map_cons] at hl
    have hhead : a.1 ∉ tl.map Prod.fst := (List.nodup_cons.mp hl).1
    have htl : (tl.map Prod.fst).Nodup := (List.nodup_cons.mp hl).2
    by_cases ha : a.1 = q.1
    · have haq : a = q := by
        rcases List.mem_cons.mp hq with h | h
        · exact h.symm
        · exact absurd (List.mem_map.mpr ⟨q, h, ha.symm⟩) (ha ▸ hhead)
      unfold lookupVal
      rw [List.find?_cons_of_pos _ (by simpa using ha)]
      rw [haq]
      rfl
    · rcases List.mem_cons.mp hq with h | h
      · exact absurd (congrArg Prod.fst h.symm) ha
      · unfold lookupVal
        rw [List.find?_cons_of_neg _ (by simpa using ha)]
        exact ih htl h

theorem filter_key {r : List CleanRecord} (hr : (r.map Prod.fst).Nodup) (ts : Timestamp) :
    (lookupVal r ts = none ∧ r.filter (fun q => decide (q.1 = ts)) = []) ∨
    (∃ q, q ∈ r ∧ q.1 = ts ∧ lookupVal r ts = some q.2 ∧
      r.filter (fun q2 => decide (q2.1 = ts)) = [q]) := by
  by_cases hmem : ts ∈ r.map Prod.fst
  · right
    obtain ⟨q, hq, hqts⟩ := List.mem_map.mp hmem
    refine ⟨q, hq, hqts, by rw [← hqts]; exact lookupVal_of_mem hr hq, ?_⟩
    subst hqts
    clear hmem
    induction r with
    | nil => exact absurd hq (List.not_mem_nil q)
    | cons a tl ih =>
      rw [List.map_cons] at hr
      have hhead : a.1 ∉ tl.map Prod.fst := (List.nodup_cons.mp hr).1
      have htl : (tl.map Prod.fst).Nodup := (List.nodup_cons.mp hr).2
      by_cases ha : a.1 = q.1
      · have haq : a = q := by
          rcases List.mem_cons.mp hq with h | h
          · exact h.symm
          · exact absurd (List.mem_map.mpr ⟨q, h, ha.symm⟩) (ha ▸ hhead)
        rw [List.filter_cons_of_pos (by simpa using ha), haq]
        have : tl.filter (fun q2 => decide (q2.1 = q.1)) = [] := by
          rw [List.filter_eq_nil_iff]
          intro b hb
          simp only [decide_eq_true_eq]
          intro hbq
          exact (haq ▸ hhead) (List.mem_map.mpr ⟨b, hb, hbq⟩)
        rw [this]
      · have hqtl : q ∈ tl := by
          rcases List.mem_cons.mp hq with h | h
          · exact absurd (congrArg Prod.fst h.symm) ha
          · exact h
        rw [List.filter_cons_of_neg (by simpa using ha)]
        exact ih htl hqtl
  · left
    refine ⟨lookupVal_eq_none hmem, ?_⟩
    rw [List.filter_eq_nil_iff]
    intro b hb
    simp only [decide_eq_true_eq]
    intro hbq
    exact hmem (List.mem_map.mpr ⟨b, hb, hbq⟩)

theorem mergeStep_left (t : List MRow) (r : List CleanRecord)
    (hr : (r.map Prod.fst).Nodup) :
    (t.flatMap fun p =>
      match r.filter (fun q => q.1 = p.1) with
      | [] => [(p.1, p.2 ++ [none])]
      | ms => ms.map fun q => (p.1, p.2 ++ [some q.2])) =
    t.map fun p => (p.1, p.2 ++ [lookupVal r p.1]) := by
  induction t with
  | nil => rfl
  | cons p tl ih =>
    rw [List.flatMap_cons, List.map_cons, ih]
    rcases filter_key hr p.1 with ⟨hnone, hfil⟩ | ⟨q, _, _, hsome, hfil⟩
    · rw [hfil, hnone]
      rfl
    · rw [hfil, hsome]
      rfl

theorem mergedOk_toTable (d : List CleanRecord) (hd : (d.map Prod.fst).Nodup) :
    MergedOk [d] (toTable d) := by
  have hkeys : (toTable d).map Prod.fst = d.map Prod.fst := by
    unfold toTable
    rw [List.map_map]
    rfl
  refine ⟨?_, ?_, ?_⟩
  · rw [hkeys]
    exact hd
  · intro ts
    rw [hkeys]
    simp
  · intro row hrow
    unfold toTable at hrow
    obtain ⟨p, hp, hpr⟩ := List.mem_map.mp hrow
    rw [← hpr]
    show [some p.2] = [lookupVal d p.1]
    rw [lookupVal_of_mem hd hp]

theorem mergedOk_step {Ls : List (List CleanRecord)} {t : List MRow} {r : List CleanRecord}
    (hok : MergedOk Ls t) (hr : (r.map Prod.fst).Nodup) :
    MergedOk (Ls ++ [r]) (mergeStep t Ls.length r) := by
  obtain ⟨hnd, hmem, hrows⟩ := hok
  unfold mergeStep
  rw [mergeStep_left t r hr]
  have hAkeys : ((t.map fun p => (p.1, p.2 ++ [lookupVal r p.1])).map Prod.fst) =
      t.map Prod.fst := by
    rw [List.map_map]
    rfl
  have hBkeys : (((r.filter fun q => decide (∀ p ∈ t, p.1 ≠ q.1)).map
      fun q => (q.1, List.replicate Ls.length none ++ [some q.2])).map Prod.fst) =
      (r.filter fun q => decide (∀ p ∈ t, p.1 ≠ q.1)).map Prod.fst := by
    rw [List.map_map]
    rfl
  refine ⟨?_, ?_, ?_⟩
  · rw [List.map_append, hAkeys, hBkeys, List.nodup_append]
    refine ⟨hnd, (List.filter_sublist r).map Prod.fst |>.nodup hr, ?_⟩
    intro ts hts hts2
    obtain ⟨q, hq, hqts⟩ := List.mem_map.mp hts2
    have hP := List.of_mem_filter hq
    simp only [decide_eq_true_eq] at hP
    obtain ⟨p0, hp0, hp0ts⟩ := List.mem_map.mp hts
    exact hP p0 hp0 (by rw [hp0ts, ← hqts])
  · intro ts
    rw [List.map_append, hAkeys, hBkeys, List.mem_append]
    constructor
    · rintro (h | h)
      · obtain ⟨L, hL, hLts⟩ := (hmem ts).mp h
        exact ⟨L, List.mem_append_left _ hL, hLts⟩
      · obtain ⟨q, hq, hqts⟩ := List.mem_map.mp h
        have hqr : q ∈ r := List.mem_of_mem_filter hq
        exact ⟨r, List.mem_append_right _ (List.mem_singleton_self r),
          List.mem_map.mpr ⟨q, hqr, hqts⟩⟩
    · rintro ⟨L, hL, hLts⟩
      rcases List.mem_append.mp hL with hLs | hLr
      · exact Or.inl ((hmem ts).mpr ⟨L, hLs, hLts⟩)
      · rw [List.mem_singleton] at hLr
        subst hLr
        by_cases hin : ts ∈ t.map Prod.fst
        · exact Or.inl hin
        · right
          obtain ⟨q, hq, hqts⟩ := List.mem_map.mp hLts
          refine List.mem_map.mpr ⟨q, List.mem_filter.mpr ⟨hq, ?_⟩, hqts⟩
          simp only [decide_eq_true_eq]
          intro p0 hp0 hp0q
          exact hin (List.mem_map.mpr ⟨p0, hp0, by rw [hp0q, hqts]⟩)
  · intro row hrow
    rw [List.map_append]
    rcases List.mem_append.mp hrow with h | h
    · obtain ⟨p, hp, hpr⟩ := List.mem_map.mp h
      rw [← hpr]
      show p.2 ++ [lookupVal r p.1] = (Ls.map fun L => lookupVal L p.1) ++
        ([r].map fun L => lookupVal L p.1)
      rw [hrows p hp]
      rfl
    · obtain ⟨q, hq, hqr⟩ := List.mem_map.mp h
      have hqmem : q ∈ r := List.mem_of_mem_filter hq
      have hP := List.of_mem_filter hq
      simp only [decide_eq_true_eq] at hP
      have hnotin : q.1 ∉ t.map Prod.fst := by
        intro hin
        obtain ⟨p0, hp0, hp0q⟩ := List.mem_map.mp hin
        exact hP p0 hp0 hp0q
      have hallnone : ∀ L ∈ Ls, lookupVal L q.1 = none := by
        intro L hL
        apply lookupVal_eq_none
        intro hLq
        exact hnotin ((hmem q.1).mpr ⟨L, hL, hLq⟩)
      have hrep : (Ls.map fun L => lookupVal L q.1) = List.replicate Ls.length none := by
        have := List.eq_replicate_of_mem (l := Ls.map fun L => lookupVal L q.1)
          (a := (none : Option Rat)) ?_
        · rw [this, List.length_map]
        · intro b hb
          obtain ⟨L, hL, hLb⟩ := List.mem_map.mp hb
          rw [← hLb]
          exact hallnone L hL
      rw [← hqr]
      show List.replicate Ls.length none ++ [some q.2] = (Ls.map fun L => lookupVal L q.1) ++
        ([r].map fun L => lookupVal L q.1)
      rw [hrep]
      show List.replicate Ls.length none ++ [some q.2] =
        List.replicate Ls.length none ++ [lookupVal r q.1]
      rw [lookupVal_of_mem hr hqmem]

theorem countP_key {u : List MRow} (hu : (u.map Prod.fst).Nodup) (ts : Timestamp) :
    u.countP (fun row => decide (row.1 = ts)) = if ts ∈ u.map Prod.fst then 1 else 0 := by
  have hcc : u.countP (fun row => decide (row.1 = ts)) =
      (u.map Prod.fst).countP (fun x => decide (x = ts)) := by
    rw [List.countP_map]
    rfl
  rw [hcc]
  split
  · next hmem =>
      show (u.map Prod.fst).count ts = 1
      exact (List.nodup_iff_count_eq_one.mp hu) ts hmem
  · next hmem =>
      show (u.map Prod.fst).count ts = 0
      exact List.count_eq_zero.mpr hmem

/-- C2: under pairwise-distinct timestamps per cleaned ride frame, the
pairwise outer-join chain (lines 33-37) produces a table whose keys are
exactly the timestamps occurring in at least one frame, each exactly
once, and each row carries per ride the frame's wait value at that
timestamp — null exactly for the rides lacking that timestamp. -/
theorem C2_outer_join_complete (d e p s n : List CleanRecord)
    (hd : (d.map Prod.fst).Nodup) (he : (e.map Prod.fst).Nodup)
    (hp : (p.map Prod.fst).Nodup) (hs : (s.map Prod.fst).Nodup)
    (hn : (n.map Prod.fst).Nodup) :
    (((unifyMerge d e p s n).map Prod.fst).Nodup)
    ∧ (∀ ts : Timestamp,
        (unifyMerge d e p s n).countP (fun row => decide (row.1 = ts)) =
          if ts ∈ d.map Prod.fst ∨ ts ∈ e.map Prod.fst ∨ ts ∈ p.map Prod.fst ∨
              ts ∈ s.map Prod.fst ∨ ts ∈ n.map Prod.fst then 1 else 0)
    ∧ (∀ row ∈ unifyMerge d e p s n,
        row.2 = [lookupVal d row.1, lookupVal e row.1, lookupVal p row.1,
          lookupVal s row.1, lookupVal n row.1]) := by
  have h1 := mergedOk_toTable d hd
  have h2 := mergedOk_step h1 he
  have h3 := mergedOk_step h2 hp
  have h4 := mergedOk_step h3 hs
  have h5 := mergedOk_step h4 hn
  have h6 : MergedOk [d, e, p, s, n] (unifyMerge d e p s n) := h5
  obtain ⟨hnd, hmem, hrows⟩ := h6
  refine ⟨hnd, ?_, ?_⟩
  · intro ts
    have hiff : (∃ L ∈ [d, e, p, s, n], ts ∈ L.map Prod.fst) ↔
        (ts ∈ d.map Prod.fst ∨ ts ∈ e.map Prod.fst ∨ ts ∈ p.map Prod.fst ∨
          ts ∈ s.map Prod.fst ∨ ts ∈ n.map Prod.fst) := by
      simp
    have hcond := (hmem ts).trans hiff
    rw [countP_key hnd ts]
    exact if_congr hcond rfl rfl
  · intro row hrow
    rw [hrows row hrow]
    rfl

/-- Witness for C2 at two concrete one-record frames (and three empty
frames), all with distinct timestamps. -/
theorem C2_outer_join_complete_witness :
    ((cdino.map Prod.fst).Nodup ∧ (ceverest.map Prod.fst).Nodup
      ∧ (([] : List CleanRecord).map Prod.fst).Nodup)
    ∧ ((((unifyMerge cdino ceverest [] [] []).map Prod.fst).Nodup)
      ∧ (∀ ts : Timestamp,
          (unifyMerge cdino ceverest [] [] []).countP (fun row => decide (row.1 = ts)) =
            if ts ∈ cdino.map Prod.fst ∨ ts ∈ ceverest.map Prod.fst ∨
                ts ∈ ([] : List CleanRecord).map Prod.fst ∨
                ts ∈ ([] : List CleanRecord).map Prod.fst ∨
                ts ∈ ([] : List CleanRecord).map Prod.fst then 1 else 0)
      ∧ (∀ row ∈ unifyMerge cdino ceverest [] [] [],
          row.2 = [lookupVal cdino row.1, lookupVal ceverest row.1,
            lookupVal [] row.1, lookupVal [] row.1, lookupVal [] row.1])) :=
  ⟨⟨by decide, by decide, by decide⟩,
   C2_outer_join_complete cdino ceverest [] [] [] (by decide) (by decide) (by decide)
     (by decide) (by decide)⟩
